import Mathlib

/-!
Verification of the shape-and-type inference utilities of the StableHLO
dialect (`stablehlo/dialect/TypeInference.h`).

The only function in the header that carries its body is the template
`inferGatherShape`; it is embedded faithfully below.  The remaining entry
points (`inferWindowOutputShape`, `verifyWindowAttributesAndInferWindowDimensions`,
`verifyReplicaGroups`, `verifyReducerShape`) are only declared in the header,
so they are modelled from the specification's descriptions; each such
definition says so in its doc comment.

Machine integers (`int64_t`) are modelled as `Int`; all loop indices in the
embedded code are provably non-negative, so no wrap-around arithmetic occurs.
-/

namespace StableHLO

/-- The integer interval `[0, n)` as a list of `Int`, mirroring a C++
`for (int i = 0; i < n; ++i)` loop (empty when `n ≤ 0`). -/
def intRange (n : Int) : List Int := (List.range n.toNat).map Int.ofNat

/-- Embeds `std::max_element` over `collapsedSliceDims` followed by the
`maxCollapsedDim = -1` default for the empty range
(`TypeInference.h`, lines 111-115). -/
def maxCollapsedDim (collapsedSliceDims : List Int) : Int :=
  match collapsedSliceDims with
  | [] => -1
  | x :: xs => xs.foldl max x

/-- Embeds the `adjustedSliceSizePrefix` accumulation loop of
`inferGatherShape` (`TypeInference.h`, lines 117-121): the slice sizes of the
dimensions up to the maximum collapsed dimension, skipping collapsed ones. -/
def adjustedSliceSizeLead {α : Type} (getSliceDim : Int → α)
    (collapsedSliceDims : List Int) : List α :=
  ((intRange (maxCollapsedDim collapsedSliceDims + 1)).filter
      (fun d => !(collapsedSliceDims.contains d))).map getSliceDim

/-- Embeds the `getAdjustedSliceDim` lambda of `inferGatherShape`
(`TypeInference.h`, lines 122-126): a materialized leading part followed by an
offset lookup past it. -/
def getAdjustedSliceDim {α : Type} [Inhabited α] (getSliceDim : Int → α)
    (collapsedSliceDims : List Int) (index : Int) : α :=
  if index < ((adjustedSliceSizeLead getSliceDim collapsedSliceDims).length : Int) then
    (adjustedSliceSizeLead getSliceDim collapsedSliceDims).getD index.toNat default
  else getSliceDim (index + collapsedSliceDims.length)

/-- Embeds the `batchDims` computation of `inferGatherShape`
(`TypeInference.h`, lines 130-132): result positions that are not offset
dimensions. -/
def gatherBatchDims (resultRank : Int) (offsetDims : List Int) : List Int :=
  (intRange resultRank).filter (fun d => !(offsetDims.contains d))

/-- Embeds `inferGatherShape` (`TypeInference.h`, lines 100-153).  The shape
is accumulated by one push per result position; the `startIndexMap` parameter
is taken but never read, exactly as in the source. -/
def inferGatherShape {α : Type} [Inhabited α] (resultRank : Int)
    (getStartIndicesDim : Int → α) (getSliceDim : Int → α)
    (offsetDims : List Int) (collapsedSliceDims : List Int)
    (startIndexMap : List Int) (indexVectorDim : Int) : List α :=
  (intRange resultRank).map (fun i =>
    if offsetDims.contains i then
      getAdjustedSliceDim getSliceDim collapsedSliceDims ((offsetDims.indexOf i : Nat) : Int)
    else
      let index : Int := ((gatherBatchDims resultRank offsetDims).indexOf i : Nat)
      getStartIndicesDim (if index ≥ indexVectorDim then index + 1 else index))

/-- The adjusted slice-size sequence described by the specification directly:
the slice-size vector with every collapsed dimension's entry dropped
(spec section 4.3).  Used as the comparison point for the refinement claim
about `getAdjustedSliceDim`. -/
def naiveAdjustedSliceSizes {α : Type} [Inhabited α] (sliceSizes : List α)
    (collapsedSliceDims : List Int) : List α :=
  ((intRange sliceSizes.length).filter
      (fun d => !(collapsedSliceDims.contains d))).map
    (fun d => sliceSizes.getD d.toNat default)

/-- Embeds the `WindowDimension` struct with its default field values
(`TypeInference.h`, lines 57-65). -/
structure WindowDimension where
  size : Int := 0
  stride : Int := 1
  paddingLow : Int := 0
  paddingHigh : Int := 0
  windowDilation : Int := 1
  baseDilation : Int := 1
  windowReversal : Bool := false
deriving DecidableEq

/-- Modelled from the spec: the validity bounds a window dimension must
satisfy after validation (spec section 3, `WindowDimension`): size ≥ 1,
stride ≥ 1, both dilations ≥ 1. -/
def validWindowDimension (w : WindowDimension) : Prop :=
  1 ≤ w.size ∧ 1 ≤ w.stride ∧ 1 ≤ w.baseDilation ∧ 1 ≤ w.windowDilation

/-- A dimension extent: a known integer or the unknown (dynamic) sentinel
(spec section 3, `Extent`). -/
inductive Extent where
  | known : Int → Extent
  | unknown : Extent
deriving DecidableEq

/-- Modelled from the spec: the per-dimension output-extent rule of
`inferWindowOutputShape` (spec section 4.2), whose body is not part of the
header under verification.  With known base extent `b`:
`paddedDilatedBase = b + paddingLow + paddingHigh + (b-1)·(baseDilation-1)`,
`dilatedWindow = 1 + (size-1)·windowDilation`; the output is unknown when the
base is unknown or `paddedDilatedBase < dilatedWindow`, and otherwise
`floor((paddedDilatedBase - dilatedWindow) / stride) + 1`. -/
def inferWindowOutputDim (b : Extent) (w : WindowDimension) : Extent :=
  match b with
  | Extent.unknown => Extent.unknown
  | Extent.known bv =>
    let paddedDilatedBase : Int :=
      bv + w.paddingLow + w.paddingHigh + (bv - 1) * (w.baseDilation - 1)
    let dilatedWindow : Int := 1 + (w.size - 1) * w.windowDilation
    if paddedDilatedBase < dilatedWindow then Extent.unknown
    else Extent.known (Int.fdiv (paddedDilatedBase - dilatedWindow) w.stride + 1)

/-- Modelled from the spec: `inferWindowOutputShape` maps the per-dimension
rule over the base shape and the window dimensions (spec section 4.2); the
header only declares the function. -/
def inferWindowOutputShape (baseShape : List Extent)
    (window : List WindowDimension) : List Extent :=
  (baseShape.zip window).map (fun p => inferWindowOutputDim p.1 p.2)

/-- The failure modes of window-attribute validation (spec sections 4.2, 7). -/
inductive WindowIssue where
  | AttributeArityMismatch
  | NonPositiveWindowAttribute
deriving DecidableEq

/-- Modelled from the spec: `verifyWindowAttributesAndInferWindowDimensions`
(spec section 4.2), whose body is not part of the header under verification.
Attribute vectors whose length differs from the spatial rank (the length of
`windowDimensions`) fail with `AttributeArityMismatch`; a window size, stride
or dilation that is not ≥ 1 fails with `NonPositiveWindowAttribute`;
otherwise one `WindowDimension` per spatial dimension is returned.  Parameter
names follow the header declaration (lines 67-72): `lhsDilation` is the base
dilation and `rhsDilation` the window dilation. -/
def verifyWindowAttributesAndInferWindowDimensions
    (windowDimensions windowStrides : List Int)
    (padding : List (Int × Int))
    (lhsDilation rhsDilation : List Int)
    (windowReversal : List Bool) :
    Except WindowIssue (List WindowDimension) :=
  if windowStrides.length ≠ windowDimensions.length ∨
      padding.length ≠ windowDimensions.length ∨
      lhsDilation.length ≠ windowDimensions.length ∨
      rhsDilation.length ≠ windowDimensions.length ∨
      windowReversal.length ≠ windowDimensions.length then
    Except.error WindowIssue.AttributeArityMismatch
  else if windowDimensions.any (fun s => decide (s ≤ 0)) ||
      windowStrides.any (fun s => decide (s ≤ 0)) ||
      lhsDilation.any (fun s => decide (s ≤ 0)) ||
      rhsDilation.any (fun s => decide (s ≤ 0)) then
    Except.error WindowIssue.NonPositiveWindowAttribute
  else
    Except.ok ((List.range windowDimensions.length).map (fun i =>
      { size := windowDimensions.getD i 0
        stride := windowStrides.getD i 1
        paddingLow := (padding.getD i (0, 0)).1
        paddingHigh := (padding.getD i (0, 0)).2
        windowDilation := rhsDilation.getD i 1
        baseDilation := lhsDilation.getD i 1
        windowReversal := windowReversal.getD i false }))

/-- The distinct failure modes of replica-group validation, in the order the
specification lists its rules (spec section 4.4). -/
inductive ReplicaGroupsIssue where
  | emptyGrid
  | unequalGroupSizes
  | notAPermutation
  | wrongGroupSize
deriving DecidableEq

/-- Modelled from the spec: `verifyReplicaGroups` (spec section 4.4), whose
body is not part of the header under verification.  The grid is modelled as a
list of rows (its being 2-D is intrinsic to that representation, so of the
spec's first rule only non-emptiness remains to be checked).  Rules in spec
order: non-empty grid; equal row lengths when `allGroupsMustHaveSameSize`;
the flattened grid is a permutation of `[0, N)` where `N` is the element
count; row length equals `expectedGroupSize` when that is given.  The
`useGlobalDeviceIds` flag appears in the header signature but plays no role
in the spec's rules. -/
def verifyReplicaGroups (replicaGroups : List (List Int))
    (allGroupsMustHaveSameSize : Bool) (useGlobalDeviceIds : Bool)
    (expectedGroupSize : Option Nat) : Except ReplicaGroupsIssue Unit :=
  if replicaGroups.isEmpty then Except.error ReplicaGroupsIssue.emptyGrid
  else if allGroupsMustHaveSameSize &&
      !(replicaGroups.all (fun r => r.length == (replicaGroups.headD []).length)) then
    Except.error ReplicaGroupsIssue.unequalGroupSizes
  else if !(decide (replicaGroups.flatten.Perm
      ((List.range replicaGroups.flatten.length).map Int.ofNat))) then
    Except.error ReplicaGroupsIssue.notAPermutation
  else
    match expectedGroupSize with
    | some s =>
        if replicaGroups.all (fun r => r.length == s) then Except.ok ()
        else Except.error ReplicaGroupsIssue.wrongGroupSize
    | none => Except.ok ()

/-- A tensor type as the reducer-signature validator sees it: a dimension
list and an element type, the latter abstracted to a tag (spec section 3). -/
structure TensorType where
  dims : List Extent
  elem : Nat
deriving DecidableEq, Inhabited

/-- The failure modes of reducer-signature validation, each carrying which
parameter is wrong and why (spec sections 4.5, 7: `ReducerSignatureMismatch`). -/
inductive ReducerIssue where
  | wrongParameterCount (got expected : Nat)
  | wrongResultCount (got expected : Nat)
  | accumulatorElementMismatch (i : Nat)
  | accumulatorShapeMismatch (i : Nat)
  | resultTypeMismatch (i : Nat)
deriving DecidableEq

/-- Modelled from the spec: the per-input check of `verifyReducerShape`
(spec section 4.5).  For input `i`: the accumulator parameter's element type
must match the init value's; its shape must be rank 0 or match the operand
rank with every extent drawn from the allowed-dimensions set; and the body's
declared result type must match the accumulator parameter type. -/
def reducerDimCheck (blockArgTypes blockResultTypes inputArgTypes
    initValueTypes : List TensorType) (allowedDimensions : List Extent)
    (i : Nat) : Option ReducerIssue :=
  let acc := blockArgTypes.getD i default
  if acc.elem ≠ (initValueTypes.getD i default).elem then
    some (ReducerIssue.accumulatorElementMismatch i)
  else if ¬ (acc.dims = [] ∨
      (acc.dims.length = (inputArgTypes.getD i default).dims.length ∧
        ∀ d ∈ acc.dims, d ∈ allowedDimensions)) then
    some (ReducerIssue.accumulatorShapeMismatch i)
  else if blockResultTypes.getD i default ≠ acc then
    some (ReducerIssue.resultTypeMismatch i)
  else none

/-- Modelled from the spec: `verifyReducerShape` (spec section 4.5), whose
body is not part of the header under verification.  The reduction body is
given by its formal-parameter types and declared result types.  The
formal-parameter count must be `2 × numInputs` (accumulators first, then
operands), the result count must be `numInputs`, and every per-input check of
`reducerDimCheck` must pass. -/
def verifyReducerShape (blockArgTypes blockResultTypes inputArgTypes
    initValueTypes : List TensorType) (numInputs : Nat)
    (allowedDimensions : List Extent) : Except ReducerIssue Unit :=
  if blockArgTypes.length ≠ 2 * numInputs then
    Except.error (ReducerIssue.wrongParameterCount blockArgTypes.length (2 * numInputs))
  else if blockResultTypes.length ≠ numInputs then
    Except.error (ReducerIssue.wrongResultCount blockResultTypes.length numInputs)
  else
    match (List.range numInputs).findSome?
        (reducerDimCheck blockArgTypes blockResultTypes inputArgTypes
          initValueTypes allowedDimensions) with
    | some e => Except.error e
    | none => Except.ok ()

end StableHLO

/-!
Helper lemmas about ranges, filters, folds and index lookup, used by the
gather-shape theorems below.
-/

namespace StableHLO

theorem mem_intRange {x k : Int} : x ∈ intRange k ↔ 0 ≤ x ∧ x < k := by
  simp only [intRange, List.mem_map, List.mem_range, Int.ofNat_eq_coe]
  constructor
  · rintro ⟨a, ha, rfl⟩
    omega
  · intro h
    exact ⟨x.toNat, by omega, by omega⟩

theorem contains_iff {l : List Int} {a : Int} : l.contains a = true ↔ a ∈ l := by
  simp [List.contains, List.elem_iff]

theorem not_contains_iff {l : List Int} {a : Int} : l.contains a = false ↔ a ∉ l := by
  rw [← contains_iff]
  cases h : l.contains a <;> simp

theorem getD_map_range {α : Type} (f : Nat → α) {k i : Nat} (h : i < k) (d : α) :
    ((List.range k).map f).getD i d = f i := by
  rw [List.getD_eq_getElem?_getD, List.getElem?_map, List.getElem?_range h]
  rfl

theorem filter_intRange (p : Int → Bool) (k : Int) :
    (intRange k).filter p =
      ((List.range k.toNat).filter (fun d => p (Int.ofNat d))).map Int.ofNat := by
  rw [intRange, List.filter_map]
  rfl

theorem naive_normal {α : Type} [Inhabited α] (s : List α) (c : List Int) :
    naiveAdjustedSliceSizes s c =
      ((List.range s.length).filter (fun d => !(c.contains (Int.ofNat d)))).map
        (fun d => s.getD d default) := by
  rw [naiveAdjustedSliceSizes, filter_intRange, List.map_map]
  norm_num

theorem lead_normal {α : Type} [Inhabited α] (s : List α) (c : List Int) :
    adjustedSliceSizeLead (fun j => s.getD j.toNat default) c =
      ((List.range (maxCollapsedDim c + 1).toNat).filter
          (fun d => !(c.contains (Int.ofNat d)))).map
        (fun d => s.getD d default) := by
  rw [adjustedSliceSizeLead, filter_intRange, List.map_map]
  norm_num

theorem le_foldl_max (xs : List Int) (a : Int) : a ≤ xs.foldl max a := by
  induction xs generalizing a with
  | nil => exact le_refl a
  | cons y ys ih => exact le_trans (le_max_left a y) (ih (max a y))

theorem foldl_max_le {xs : List Int} {x : Int} (a : Int) (hx : x ∈ xs) :
    x ≤ xs.foldl max a := by
  induction xs generalizing a with
  | nil => cases hx
  | cons y ys ih =>
    rcases List.mem_cons.mp hx with rfl | h
    · exact le_trans (le_max_right a x) (le_foldl_max ys (max a x))
    · exact ih (max a y) h

theorem foldl_max_mem (xs : List Int) (a : Int) :
    xs.foldl max a = a ∨ xs.foldl max a ∈ xs := by
  induction xs generalizing a with
  | nil => exact Or.inl rfl
  | cons y ys ih =>
    rcases ih (max a y) with h | h
    · rw [List.foldl_cons, h]
      rcases max_choice a y with h2 | h2
      · exact Or.inl h2
      · exact Or.inr (by rw [h2]; exact List.mem_cons_self y ys)
    · exact Or.inr (List.mem_cons_of_mem y h)

theorem maxCollapsedDim_mem {c : List Int} (h : c ≠ []) : maxCollapsedDim c ∈ c := by
  cases c with
  | nil => simp at h
  | cons x xs =>
    rw [maxCollapsedDim]
    rcases foldl_max_mem xs x with h2 | h2
    · rw [h2]; exact List.mem_cons_self x xs
    · exact List.mem_cons_of_mem x h2

theorem le_maxCollapsedDim {c : List Int} {x : Int} (hx : x ∈ c) :
    x ≤ maxCollapsedDim c := by
  cases c with
  | nil => cases hx
  | cons y ys =>
    rw [maxCollapsedDim]
    rcases List.mem_cons.mp hx with rfl | h
    · exact le_foldl_max ys x
    · exact foldl_max_le y h

theorem length_filter_contains {c : List Int} {k : Nat}
    (hnd : c.Nodup) (hr : ∀ x ∈ c, 0 ≤ x ∧ x < (k : Int)) :
    ((List.range k).filter (fun d => c.contains (Int.ofNat d))).length = c.length := by
  have hl : ((List.range k).filter (fun d => c.contains (Int.ofNat d))).Nodup :=
    (List.nodup_range k).filter _
  have ht : (c.map Int.toNat).Nodup := by
    refine hnd.map_on ?_
    intro x hx y hy hxy
    have h1 := hr x hx
    have h2 := hr y hy
    omega
  have hmem : ∀ a : Nat, a ∈ (List.range k).filter (fun d => c.contains (Int.ofNat d)) ↔
      a ∈ c.map Int.toNat := by
    intro a
    simp only [List.mem_filter, List.mem_range, List.mem_map, contains_iff, Int.ofNat_eq_coe]
    constructor
    · rintro ⟨hak, hac⟩
      exact ⟨(a : Int), hac, by omega⟩
    · rintro ⟨x, hx, rfl⟩
      have := hr x hx
      constructor
      · omega
      · have h3 : ((x.toNat : Nat) : Int) = x := by omega
        rw [h3]
        exact hx
  have hperm := (List.perm_ext_iff_of_nodup hl ht).mpr hmem
  rw [hperm.length_eq, List.length_map]

theorem length_filter_not_contains {c : List Int} {k : Nat}
    (hnd : c.Nodup) (hr : ∀ x ∈ c, 0 ≤ x ∧ x < (k : Int)) :
    ((List.range k).filter (fun d => !(c.contains (Int.ofNat d)))).length = k - c.length := by
  have hperm := List.filter_append_perm (fun d => c.contains (Int.ofNat d)) (List.range k)
  have hlen := hperm.length_eq
  rw [List.length_append, List.length_range] at hlen
  rw [length_filter_contains hnd hr] at hlen
  omega

theorem length_le_of_range {c : List Int} {k : Nat}
    (hnd : c.Nodup) (hr : ∀ x ∈ c, 0 ≤ x ∧ x < (k : Int)) : c.length ≤ k := by
  have h := length_filter_contains hnd hr
  have h2 := List.length_filter_le (fun d => c.contains (Int.ofNat d)) (List.range k)
  rw [List.length_range] at h2
  omega

theorem naive_length {α : Type} [Inhabited α] (s : List α) (c : List Int)
    (hnd : c.Nodup) (hr : ∀ x ∈ c, 0 ≤ x ∧ x < (s.length : Int)) :
    (naiveAdjustedSliceSizes s c).length = s.length - c.length := by
  rw [naive_normal, List.length_map, length_filter_not_contains hnd hr]

end StableHLO

namespace StableHLO

/-- Core refinement fact: for duplicate-free collapsed dimensions within the
slice-size vector's range, the code's two-piece adjusted-slice-size lookup
agrees with the naive sequence obtained by deleting the collapsed entries. -/
theorem adjusted_eq_naive {α : Type} [Inhabited α] (s : List α) (c : List Int)
    (hnd : c.Nodup) (hr : ∀ x ∈ c, 0 ≤ x ∧ x < (s.length : Int))
    {i : Nat} (hi : i < (naiveAdjustedSliceSizes s c).length) :
    getAdjustedSliceDim (fun j => s.getD j.toNat default) c (i : Int) =
      (naiveAdjustedSliceSizes s c).getD i default := by
  rw [naive_length s c hnd hr] at hi
  rcases eq_or_ne c [] with rfl | hne
  · have hlead : adjustedSliceSizeLead (fun j : Int => s.getD j.toNat default)
        ([] : List Int) = [] := by
      rw [lead_normal]
      simp [maxCollapsedDim]
    simp only [getAdjustedSliceDim, hlead, List.length_nil]
    rw [if_neg (by omega)]
    rw [naive_normal]
    have hfilter : (List.range s.length).filter
        (fun d => !(([] : List Int).contains (Int.ofNat d))) = List.range s.length := by
      apply List.filter_eq_self.mpr
      intro a _
      rfl
    rw [hfilter, getD_map_range _ (by omega) _]
    norm_num
  · set maxC := maxCollapsedDim c with hmc
    have hmem := maxCollapsedDim_mem hne
    have hbounds := hr _ hmem
    set n := s.length with hn
    set M := (maxC + 1).toNat with hM
    have hMn : M ≤ n := by omega
    have hrM : ∀ x ∈ c, 0 ≤ x ∧ x < (M : Int) := by
      intro x hx
      have h1 := hr x hx
      have h2 := le_maxCollapsedDim hx
      rw [← hmc] at h2
      omega
    have hclM : c.length ≤ M := length_le_of_range hnd hrM
    have hsplit : List.range n = List.range M ++ (List.range (n - M)).map (fun j => M + j) := by
      conv_lhs => rw [show n = M + (n - M) by omega]
      rw [List.range_add]
    have hQsplit : (List.range n).filter (fun d => !(c.contains (Int.ofNat d))) =
        ((List.range M).filter (fun d => !(c.contains (Int.ofNat d)))) ++
          ((List.range (n - M)).map (fun j => M + j)) := by
      rw [hsplit, List.filter_append]
      congr 1
      apply List.filter_eq_self.mpr
      intro a ha
      rcases List.mem_map.mp ha with ⟨j, _, rfl⟩
      have hnotmem : Int.ofNat (M + j) ∉ c := by
        intro hmem2
        have h3 := le_maxCollapsedDim hmem2
        rw [← hmc] at h3
        simp only [Int.ofNat_eq_coe] at h3
        omega
      rw [Bool.not_eq_true', not_contains_iff]
      exact hnotmem
    have hlen_lead : (adjustedSliceSizeLead (fun j : Int => s.getD j.toNat default) c).length
        = M - c.length := by
      rw [lead_normal, List.length_map, ← hmc, ← hM, length_filter_not_contains hnd hrM]
    have hnaive : naiveAdjustedSliceSizes s c =
        adjustedSliceSizeLead (fun j : Int => s.getD j.toNat default) c ++
          (List.range (n - M)).map (fun j => s.getD (M + j) default) := by
      rw [naive_normal, lead_normal, ← hmc, ← hM, ← hn, hQsplit, List.map_append, List.map_map]
      rfl
    simp only [getAdjustedSliceDim, hnaive, hlen_lead]
    by_cases hiL : i < M - c.length
    · rw [if_pos (by omega)]
      have h2 : ((i : Nat) : Int).toNat = i := by omega
      rw [h2]
      rw [List.getD_append _ _ _ _ (by rw [hlen_lead]; exact hiL)]
    · rw [if_neg (by omega)]
      rw [List.getD_append_right _ _ _ _ (by rw [hlen_lead]; omega)]
      rw [hlen_lead]
      rw [getD_map_range _ (by omega) _]
      congr 1
      omega

/-- In a strictly increasing integer list, the index of a member equals the
number of entries smaller than it (its rank-order index). -/
theorem indexOf_sorted {l : List Int} (hs : List.Sorted (· < ·) l) {i : Int} (hi : i ∈ l) :
    l.indexOf i = (l.filter (fun d => decide (d < i))).length := by
  induction l with
  | nil => cases hi
  | cons a t ih =>
    have hat := List.sorted_cons.mp hs
    rcases List.mem_cons.mp hi with rfl | hit
    · rw [List.indexOf_cons]
      simp only [beq_self_eq_true, cond_true]
      rw [List.filter_cons]
      have h1 : (decide (i < i)) = false := by simp
      rw [h1]
      simp only [Bool.false_eq_true, if_false]
      have h2 : t.filter (fun d => decide (d < i)) = [] := by
        apply List.filter_eq_nil_iff.mpr
        intro b hb
        have := hat.1 b hb
        simp only [decide_eq_true_eq]
        omega
      rw [h2]
      rfl
    · have hne : a ≠ i := by
        have := hat.1 i hit
        omega
      rw [List.indexOf_cons]
      have hbeq : (a == i) = false := by
        simp [hne]
      rw [hbeq]
      simp only [cond_false]
      rw [List.filter_cons]
      have hlt : (decide (a < i)) = true := by
        simp only [decide_eq_true_eq]
        exact hat.1 i hit
      rw [hlt]
      simp only [if_true]
      rw [List.length_cons, ih hat.2 hit]

theorem sorted_intRange (k : Int) : List.Sorted (· < ·) (intRange k) := by
  rw [intRange]
  apply List.Pairwise.map
  · intro a b h
    exact Int.ofNat_lt.mpr h
  · exact List.pairwise_lt_range k.toNat

theorem sorted_gatherBatchDims (rr : Int) (off : List Int) :
    List.Sorted (· < ·) (gatherBatchDims rr off) :=
  (sorted_intRange rr).filter _

/-- Restricting the entries of a filtered initial segment to those below a cut
point `i` is the same as filtering the initial segment `[0, i)`. -/
theorem filter_lt_length {k i : Int} (h0 : 0 ≤ i) (hik : i ≤ k) (p : Int → Bool) :
    (((intRange k).filter p).filter (fun d => decide (d < i))).length =
      ((intRange i).filter p).length := by
  rw [List.filter_filter]
  rw [filter_intRange, filter_intRange, List.length_map, List.length_map]
  have hsplit : List.range k.toNat =
      List.range i.toNat ++ (List.range (k.toNat - i.toNat)).map (fun j => i.toNat + j) := by
    conv_lhs => rw [show k.toNat = i.toNat + (k.toNat - i.toNat) by omega]
    rw [List.range_add]
  rw [hsplit, List.filter_append, List.length_append]
  have hleft : (List.range i.toNat).filter
      (fun d => decide (Int.ofNat d < i) && p (Int.ofNat d)) =
      (List.range i.toNat).filter (fun d => p (Int.ofNat d)) := by
    apply List.filter_congr
    intro a ha
    simp only [List.mem_range] at ha
    have hai : (decide (Int.ofNat a < i)) = true := by
      simp only [decide_eq_true_eq, Int.ofNat_eq_coe]
      omega
    rw [hai, Bool.true_and]
  have hright : ((List.range (k.toNat - i.toNat)).map (fun j => i.toNat + j)).filter
      (fun d => decide (Int.ofNat d < i) && p (Int.ofNat d)) = [] := by
    apply List.filter_eq_nil_iff.mpr
    intro b hb
    rcases List.mem_map.mp hb with ⟨j, _, rfl⟩
    have hbi : (decide (Int.ofNat (i.toNat + j) < i)) = false := by
      simp only [decide_eq_false_iff_not, Int.ofNat_eq_coe]
      omega
    rw [hbi, Bool.false_and]
    simp
  rw [hleft, hright]
  simp

theorem getD_map_intRange {α : Type} (f : Int → α) {k i : Int} (h0 : 0 ≤ i) (h : i < k)
    (d : α) : ((intRange k).map f).getD i.toNat d = f i := by
  rw [intRange, List.map_map, getD_map_range _ (by omega) d]
  have : Int.ofNat i.toNat = i := by
    simp only [Int.ofNat_eq_coe]
    omega
  simp only [Function.comp_apply, this]

theorem gatherBatchDims_length (rr : Int) (off : List Int) (hnd : off.Nodup)
    (hr : ∀ x ∈ off, 0 ≤ x ∧ x < rr) :
    (gatherBatchDims rr off).length = rr.toNat - off.length := by
  rw [gatherBatchDims, filter_intRange, List.length_map]
  apply length_filter_not_contains hnd
  intro x hx
  have := hr x hx
  omega

end StableHLO

namespace StableHLO

/-- Success characterization of `verifyReplicaGroups`: acceptance exactly when
every one of the spec's rules holds. -/
theorem verifyReplicaGroups_ok_iff (replicaGroups : List (List Int))
    (same ugdi : Bool) (exp : Option Nat) :
    verifyReplicaGroups replicaGroups same ugdi exp = Except.ok () ↔
      (replicaGroups ≠ [] ∧
       (same = true → ∀ r1 ∈ replicaGroups, ∀ r2 ∈ replicaGroups, r1.length = r2.length) ∧
       replicaGroups.flatten.Perm
         ((List.range replicaGroups.flatten.length).map Int.ofNat) ∧
       (∀ s : Nat, exp = some s → ∀ r ∈ replicaGroups, r.length = s)) := by
  cases replicaGroups with
  | nil =>
    constructor
    · intro h
      rw [verifyReplicaGroups.eq_def] at h
      simp at h
    · rintro ⟨hA, -⟩
      exact absurd rfl hA
  | cons g gs =>
    constructor
    · intro h
      rw [verifyReplicaGroups.eq_def] at h
      rw [if_neg (by simp)] at h
      by_cases hc1 : (same && !((g :: gs).all
          fun r => r.length == ((g :: gs).headD []).length)) = true
      · rw [if_pos hc1] at h
        cases h
      · rw [if_neg hc1] at h
        by_cases hc2 : (!decide ((g :: gs).flatten.Perm
            ((List.range (g :: gs).flatten.length).map Int.ofNat))) = true
        · rw [if_pos hc2] at h
          cases h
        · rw [if_neg hc2] at h
          refine ⟨by simp, ?_, ?_, ?_⟩
          · intro hsame r1 hr1 r2 hr2
            rw [hsame] at hc1
            simp only [Bool.true_and, Bool.not_eq_true', Bool.not_eq_false] at hc1
            rw [List.all_eq_true] at hc1
            have e1 := hc1 r1 hr1
            have e2 := hc1 r2 hr2
            simp only [List.headD_cons, beq_iff_eq] at e1 e2
            rw [e1, e2]
          · simp only [Bool.not_eq_true', decide_eq_false_iff_not, not_not] at hc2
            exact hc2
          · intro s hs r hr
            rw [hs] at h
            by_cases hc3 : ((g :: gs).all fun r => r.length == s) = true
            · rw [List.all_eq_true] at hc3
              have := hc3 r hr
              simpa using this
            · exfalso
              have hred : (match some s with
                  | some s =>
                    if ((g :: gs).all fun r => r.length == s) = true then Except.ok ()
                    else Except.error ReplicaGroupsIssue.wrongGroupSize
                  | none => (Except.ok () : Except ReplicaGroupsIssue Unit)) =
                  Except.error ReplicaGroupsIssue.wrongGroupSize := by
                rw [show (match some s with
                  | some s =>
                    if ((g :: gs).all fun r => r.length == s) = true then Except.ok ()
                    else Except.error ReplicaGroupsIssue.wrongGroupSize
                  | none => (Except.ok () : Except ReplicaGroupsIssue Unit)) =
                    (if ((g :: gs).all fun r => r.length == s) = true then Except.ok ()
                     else Except.error ReplicaGroupsIssue.wrongGroupSize) from rfl]
                rw [if_neg hc3]
              rw [hred] at h
              cases h
    · rintro ⟨-, hB, hC, hD⟩
      rw [verifyReplicaGroups.eq_def]
      rw [if_neg (by simp)]
      rw [if_neg ?hsz, if_neg ?hperm]
      case hperm =>
        simp only [Bool.not_eq_true', decide_eq_false_iff_not, not_not]
        exact hC
      case hsz =>
        simp only [Bool.and_eq_true, Bool.not_eq_true', not_and, Bool.not_eq_false]
        intro hs1
        rw [List.all_eq_true]
        intro r hr
        simp only [List.headD_cons, beq_iff_eq]
        exact hB hs1 r hr g (List.mem_cons_self g gs)
      cases exp with
      | none => rfl
      | some s =>
        have hall : ((g :: gs).all fun r => r.length == s) = true := by
          rw [List.all_eq_true]
          intro r hr
          have := hD s rfl r hr
          simpa using this
        show (if ((g :: gs).all fun r => r.length == s) = true then Except.ok ()
            else Except.error ReplicaGroupsIssue.wrongGroupSize) = Except.ok ()
        rw [if_pos hall]

/-- A per-input reducer check passes exactly when its three conditions hold. -/
theorem reducerDimCheck_eq_none_iff (blockArgTypes blockResultTypes inputArgTypes
    initValueTypes : List TensorType) (allowedDimensions : List Extent) (i : Nat) :
    reducerDimCheck blockArgTypes blockResultTypes inputArgTypes initValueTypes
        allowedDimensions i = none ↔
      ((blockArgTypes.getD i default).elem = (initValueTypes.getD i default).elem ∧
       ((blockArgTypes.getD i default).dims = [] ∨
         ((blockArgTypes.getD i default).dims.length =
             (inputArgTypes.getD i default).dims.length ∧
           ∀ d ∈ (blockArgTypes.getD i default).dims, d ∈ allowedDimensions)) ∧
       blockResultTypes.getD i default = blockArgTypes.getD i default) := by
  rw [reducerDimCheck]
  split_ifs with h1 h2 h3 <;> simp_all

/-- Success characterization of `verifyReducerShape`: acceptance exactly when
the arity conditions and every per-input check hold. -/
theorem verifyReducerShape_ok_iff (blockArgTypes blockResultTypes inputArgTypes
    initValueTypes : List TensorType) (numInputs : Nat)
    (allowedDimensions : List Extent) :
    verifyReducerShape blockArgTypes blockResultTypes inputArgTypes initValueTypes
        numInputs allowedDimensions = Except.ok () ↔
      (blockArgTypes.length = 2 * numInputs ∧
       blockResultTypes.length = numInputs ∧
       ∀ i < numInputs,
         (blockArgTypes.getD i default).elem = (initValueTypes.getD i default).elem ∧
         ((blockArgTypes.getD i default).dims = [] ∨
           ((blockArgTypes.getD i default).dims.length =
               (inputArgTypes.getD i default).dims.length ∧
             ∀ d ∈ (blockArgTypes.getD i default).dims, d ∈ allowedDimensions)) ∧
         blockResultTypes.getD i default = blockArgTypes.getD i default) := by
  constructor
  · intro h
    rw [verifyReducerShape.eq_def] at h
    by_cases h1 : blockArgTypes.length ≠ 2 * numInputs
    · rw [if_pos h1] at h
      cases h
    · rw [if_neg h1] at h
      by_cases h2 : blockResultTypes.length ≠ numInputs
      · rw [if_pos h2] at h
        cases h
      · rw [if_neg h2] at h
        rcases hfind : (List.range numInputs).findSome? (reducerDimCheck blockArgTypes
            blockResultTypes inputArgTypes initValueTypes allowedDimensions) with _ | e
        · refine ⟨by omega, by omega, ?_⟩
          intro i hi
          have hnone := List.findSome?_eq_none_iff.mp hfind i (List.mem_range.mpr hi)
          exact (reducerDimCheck_eq_none_iff _ _ _ _ _ i).mp hnone
        · rw [hfind] at h
          cases h
  · rintro ⟨hL1, hL2, hper⟩
    rw [verifyReducerShape.eq_def]
    rw [if_neg (by omega), if_neg (by omega)]
    have hfind : (List.range numInputs).findSome? (reducerDimCheck blockArgTypes
        blockResultTypes inputArgTypes initValueTypes allowedDimensions) = none := by
      apply List.findSome?_eq_none_iff.mpr
      intro x hx
      exact (reducerDimCheck_eq_none_iff _ _ _ _ _ x).mpr (hper x (List.mem_range.mp hx))
    rw [hfind]

end StableHLO

/-!
The claims.
-/

namespace StableHLO

/-- Claim C1: for every result position `i` of a gather-family shape
inference, the inferred extent at `i` is the adjusted slice-size sequence
(the slice-size vector with every collapsed entry dropped) at the rank-order
index of `i` among the offset dimensions when `i` is an offset dimension, and
otherwise the start-indices extent at the batch position of `i`, incremented
by one once it reaches the index-vector dimension; and the result rank is the
offset-dimension count plus the batch-dimension count.  The dimension-mapping
validity invariants (strictly increasing, in-range dimension sets) are taken
as hypotheses. -/
theorem gather_shape_characterization {α : Type} [Inhabited α]
    (resultRank : Int) (getStartIndicesDim : Int → α) (sliceSizes : List α)
    (offsetDims collapsedSliceDims startIndexMap : List Int) (indexVectorDim : Int)
    (hoSorted : List.Sorted (· < ·) offsetDims)
    (hoRange : ∀ x ∈ offsetDims, 0 ≤ x ∧ x < resultRank)
    (hcSorted : List.Sorted (· < ·) collapsedSliceDims)
    (hcRange : ∀ x ∈ collapsedSliceDims, 0 ≤ x ∧ x < (sliceSizes.length : Int))
    (hcount : offsetDims.length + collapsedSliceDims.length ≤ sliceSizes.length) :
    (inferGatherShape resultRank getStartIndicesDim
        (fun j => sliceSizes.getD j.toNat default) offsetDims collapsedSliceDims
        startIndexMap indexVectorDim).length =
      offsetDims.length + (gatherBatchDims resultRank offsetDims).length
    ∧ ∀ i : Int, 0 ≤ i → i < resultRank →
        (i ∈ offsetDims →
          (inferGatherShape resultRank getStartIndicesDim
              (fun j => sliceSizes.getD j.toNat default) offsetDims collapsedSliceDims
              startIndexMap indexVectorDim).getD i.toNat default =
            (naiveAdjustedSliceSizes sliceSizes collapsedSliceDims).getD
              ((offsetDims.filter (fun d => decide (d < i))).length) default)
        ∧ (i ∉ offsetDims →
          (inferGatherShape resultRank getStartIndicesDim
              (fun j => sliceSizes.getD j.toNat default) offsetDims collapsedSliceDims
              startIndexMap indexVectorDim).getD i.toNat default =
            getStartIndicesDim
              (if ((((intRange i).filter (fun d => !(offsetDims.contains d))).length : Nat) : Int)
                  ≥ indexVectorDim
               then ((((intRange i).filter (fun d => !(offsetDims.contains d))).length : Nat) : Int) + 1
               else ((((intRange i).filter (fun d => !(offsetDims.contains d))).length : Nat) : Int))) := by
  constructor
  · rw [inferGatherShape, List.length_map, intRange, List.length_map, List.length_range]
    rw [gatherBatchDims_length resultRank offsetDims hoSorted.nodup hoRange]
    have hle : offsetDims.length ≤ resultRank.toNat := by
      apply length_le_of_range hoSorted.nodup
      intro x hx
      have := hoRange x hx
      omega
    omega
  · intro i h0 hir
    have hbody := getD_map_intRange (fun i =>
      if offsetDims.contains i then
        getAdjustedSliceDim (fun j => sliceSizes.getD j.toNat default) collapsedSliceDims
          ((offsetDims.indexOf i : Nat) : Int)
      else
        getStartIndicesDim
          (if (((gatherBatchDims resultRank offsetDims).indexOf i : Nat) : Int) ≥ indexVectorDim
           then (((gatherBatchDims resultRank offsetDims).indexOf i : Nat) : Int) + 1
           else (((gatherBatchDims resultRank offsetDims).indexOf i : Nat) : Int)))
      h0 hir default
    constructor
    · intro hmem
      have hc : offsetDims.contains i = true := contains_iff.mpr hmem
      rw [inferGatherShape, hbody, if_pos hc]
      rw [indexOf_sorted hoSorted hmem]
      apply adjusted_eq_naive sliceSizes collapsedSliceDims hcSorted.nodup hcRange
      rw [naive_length sliceSizes collapsedSliceDims hcSorted.nodup hcRange]
      have hlt : offsetDims.indexOf i < offsetDims.length :=
        List.indexOf_lt_length.mpr hmem
      rw [indexOf_sorted hoSorted hmem] at hlt
      omega
    · intro hnotmem
      have hc : offsetDims.contains i = false := not_contains_iff.mpr hnotmem
      rw [inferGatherShape, hbody, if_neg (by rw [hc]; simp)]
      have hmemb : i ∈ gatherBatchDims resultRank offsetDims := by
        rw [gatherBatchDims]
        apply List.mem_filter.mpr
        refine ⟨mem_intRange.mpr ⟨h0, hir⟩, ?_⟩
        rw [hc]
        rfl
      rw [indexOf_sorted (sorted_gatherBatchDims resultRank offsetDims) hmemb]
      rw [gatherBatchDims]
      rw [filter_lt_length h0 (le_of_lt hir) _]

/-- Witness for C1: the length clause instantiated at a concrete valid gather
configuration (operand rank 3, collapsed dimension 1, offset dimension 1). -/
theorem gather_shape_characterization_witness :
    (inferGatherShape (α := Int) 2 (fun j => ([5, 3] : List Int).getD j.toNat default)
        (fun j => ([1, 1, 3] : List Int).getD j.toNat default) [1] [1] [0, 1, 2] 1).length =
      ([1] : List Int).length + (gatherBatchDims 2 [1]).length :=
  (gather_shape_characterization 2 (fun j => ([5, 3] : List Int).getD j.toNat default)
      [1, 1, 3] [1] [1] [0, 1, 2] 1 (by decide) (by decide) (by decide) (by decide)
      (by decide)).1

/-- Claim C2 (counterexample): the claimed identity-window law fails at known
base extent 0: with size 1, stride 1, no padding and unit dilations, the
spec's formula yields `unknown` (since `paddedDilatedBase = 0 < 1 =
dilatedWindow`), not the base extent 0. -/
theorem window_identity_zero_base_counterexample :
    inferWindowOutputDim (Extent.known 0)
      { size := 1, stride := 1, paddingLow := 0, paddingHigh := 0,
        windowDilation := 1, baseDilation := 1 } = Extent.unknown ∧
    Extent.unknown ≠ Extent.known 0 := ⟨by decide, by decide⟩

/-- Claim C2 (amended): per-dimension window output extents follow the
formula `floor((paddedDilatedBase - dilatedWindow) / stride) + 1`, guarded to
`unknown` when the base is unknown or `paddedDilatedBase < dilatedWindow`;
an unknown base always yields an unknown output; and the identity window
(size 1, stride 1, no padding, unit dilations) preserves every known base
extent that is at least 1 (rather than every known base extent). -/
theorem window_output_shape_amended :
    (∀ (baseShape : List Extent) (window : List WindowDimension) (i : Nat),
      i < baseShape.length → i < window.length →
      (inferWindowOutputShape baseShape window).getD i Extent.unknown =
        inferWindowOutputDim (baseShape.getD i Extent.unknown) (window.getD i {}))
    ∧ (∀ (bv : Int) (w : WindowDimension),
      inferWindowOutputDim (Extent.known bv) w =
        if bv + w.paddingLow + w.paddingHigh + (bv - 1) * (w.baseDilation - 1) <
            1 + (w.size - 1) * w.windowDilation then Extent.unknown
        else Extent.known (Int.fdiv
          (bv + w.paddingLow + w.paddingHigh + (bv - 1) * (w.baseDilation - 1) -
            (1 + (w.size - 1) * w.windowDilation)) w.stride + 1))
    ∧ (∀ w : WindowDimension, inferWindowOutputDim Extent.unknown w = Extent.unknown)
    ∧ (∀ bv : Int, 1 ≤ bv →
        inferWindowOutputDim (Extent.known bv)
          { size := 1, stride := 1, paddingLow := 0, paddingHigh := 0,
            windowDilation := 1, baseDilation := 1 } = Extent.known bv) := by
  refine ⟨?_, fun bv w => rfl, fun w => rfl, fun bv hbv => ?_⟩
  · intro baseShape window i h1 h2
    rw [inferWindowOutputShape, List.getD_eq_getElem?_getD, List.getElem?_map]
    rw [List.zip, List.getElem?_zipWith]
    rw [List.getElem?_eq_getElem h1, List.getElem?_eq_getElem h2]
    simp only [Option.map_some', Option.getD_some]
    congr 1
    · rw [List.getD_eq_getElem?_getD, List.getElem?_eq_getElem h1]
      rfl
    · rw [List.getD_eq_getElem?_getD, List.getElem?_eq_getElem h2]
      rfl
  · rw [inferWindowOutputDim]
    simp only
    rw [if_neg (by omega)]
    have h1 : bv + 0 + 0 + (bv - 1) * (1 - 1) - (1 + (1 - 1) * 1) = bv - 1 := by ring
    rw [h1, Int.fdiv_one]
    congr 1
    omega

/-- Witness for C2 (amended): the identity window preserves base extent 3. -/
theorem window_output_shape_amended_witness :
    inferWindowOutputDim (Extent.known 3)
      { size := 1, stride := 1, paddingLow := 0, paddingHigh := 0,
        windowDilation := 1, baseDilation := 1 } = Extent.known 3 :=
  window_output_shape_amended.2.2.2 3 (by decide)

end StableHLO

namespace StableHLO

/-- Claim C3: window-attribute validation fails with
`AttributeArityMismatch` whenever some attribute vector's length differs from
the spatial rank; with matching arities it fails with
`NonPositiveWindowAttribute` whenever any per-dimension window size, stride or
dilation is ≤ 0 (so size 0 and negative strides are rejected for all
combinations of the other attributes); and on success it returns one
`WindowDimension` per spatial dimension. -/
theorem window_attribute_validation (windowDimensions windowStrides : List Int)
    (padding : List (Int × Int)) (lhsDilation rhsDilation : List Int)
    (windowReversal : List Bool) :
    ((windowStrides.length ≠ windowDimensions.length ∨
      padding.length ≠ windowDimensions.length ∨
      lhsDilation.length ≠ windowDimensions.length ∨
      rhsDilation.length ≠ windowDimensions.length ∨
      windowReversal.length ≠ windowDimensions.length) →
      verifyWindowAttributesAndInferWindowDimensions windowDimensions windowStrides
        padding lhsDilation rhsDilation windowReversal =
        Except.error WindowIssue.AttributeArityMismatch)
    ∧ (windowStrides.length = windowDimensions.length →
       padding.length = windowDimensions.length →
       lhsDilation.length = windowDimensions.length →
       rhsDilation.length = windowDimensions.length →
       windowReversal.length = windowDimensions.length →
       ((∃ s ∈ windowDimensions, s ≤ 0) ∨ (∃ s ∈ windowStrides, s ≤ 0) ∨
        (∃ s ∈ lhsDilation, s ≤ 0) ∨ (∃ s ∈ rhsDilation, s ≤ 0)) →
      verifyWindowAttributesAndInferWindowDimensions windowDimensions windowStrides
        padding lhsDilation rhsDilation windowReversal =
        Except.error WindowIssue.NonPositiveWindowAttribute)
    ∧ (∀ dims : List WindowDimension,
      verifyWindowAttributesAndInferWindowDimensions windowDimensions windowStrides
        padding lhsDilation rhsDilation windowReversal = Except.ok dims →
      dims.length = windowDimensions.length) := by
  refine ⟨?_, ?_, ?_⟩
  · intro h
    rw [verifyWindowAttributesAndInferWindowDimensions, if_pos h]
  · intro h1 h2 h3 h4 h5 hex
    have hcond : (windowDimensions.any (fun s => decide (s ≤ 0)) ||
        windowStrides.any (fun s => decide (s ≤ 0)) ||
        lhsDilation.any (fun s => decide (s ≤ 0)) ||
        rhsDilation.any (fun s => decide (s ≤ 0))) = true := by
      simp only [Bool.or_eq_true, List.any_eq_true, decide_eq_true_eq]
      rcases hex with ⟨s, hs, hle⟩ | ⟨s, hs, hle⟩ | ⟨s, hs, hle⟩ | ⟨s, hs, hle⟩
      · exact Or.inl (Or.inl (Or.inl ⟨s, hs, hle⟩))
      · exact Or.inl (Or.inl (Or.inr ⟨s, hs, hle⟩))
      · exact Or.inl (Or.inr ⟨s, hs, hle⟩)
      · exact Or.inr ⟨s, hs, hle⟩
    rw [verifyWindowAttributesAndInferWindowDimensions, if_neg (by tauto), if_pos hcond]
  · intro dims h
    rw [verifyWindowAttributesAndInferWindowDimensions] at h
    split_ifs at h
    simp only [Except.ok.injEq] at h
    rw [← h, List.length_map, List.length_range]

/-- Witness for C3: window size 0 in a rank-1 window is rejected with
`NonPositiveWindowAttribute`. -/
theorem window_attribute_validation_witness :
    verifyWindowAttributesAndInferWindowDimensions [0] [1] [(0, 0)] [1] [1] [false] =
      Except.error WindowIssue.NonPositiveWindowAttribute :=
  (window_attribute_validation [0] [1] [(0, 0)] [1] [1] [false]).2.1 rfl rfl rfl rfl rfl
    (Or.inl ⟨0, by decide, by decide⟩)

/-- Claim C4: `verifyReplicaGroups` accepts a replica-group grid exactly when
it is non-empty (being 2-D is intrinsic to the row-list representation), all
rows have equal length when `allGroupsMustHaveSameSize` is set, the flattened
grid is a permutation of `[0, N)` for `N` the element count, and every row
length equals `expectedGroupSize` when that is given; concretely it accepts
`[[0,1],[2,3]]`, rejects `[[0,1],[1,2]]` (duplicate replica id) and rejects
`[[0,1],[2]]` under `allGroupsMustHaveSameSize`. -/
theorem replica_groups_validation :
    (∀ (replicaGroups : List (List Int)) (same ugdi : Bool) (exp : Option Nat),
      verifyReplicaGroups replicaGroups same ugdi exp = Except.ok () ↔
        (replicaGroups ≠ [] ∧
         (same = true → ∀ r1 ∈ replicaGroups, ∀ r2 ∈ replicaGroups,
            r1.length = r2.length) ∧
         replicaGroups.flatten.Perm
           ((List.range replicaGroups.flatten.length).map Int.ofNat) ∧
         (∀ s : Nat, exp = some s → ∀ r ∈ replicaGroups, r.length = s)))
    ∧ verifyReplicaGroups [[0, 1], [2, 3]] true false none = Except.ok ()
    ∧ verifyReplicaGroups [[0, 1], [1, 2]] false false none =
        Except.error ReplicaGroupsIssue.notAPermutation
    ∧ verifyReplicaGroups [[0, 1], [2]] true false none =
        Except.error ReplicaGroupsIssue.unequalGroupSizes :=
  ⟨verifyReplicaGroups_ok_iff, rfl, rfl, rfl⟩

/-- Witness for C4: the acceptance direction of the characterization at a
concrete grid with an expected group size. -/
theorem replica_groups_validation_witness :
    verifyReplicaGroups [[0, 1], [2, 3]] false false (some 2) = Except.ok () :=
  (replica_groups_validation.1 [[0, 1], [2, 3]] false false (some 2)).mpr (by
    refine ⟨by decide, ?_, by decide, ?_⟩
    · intro h
      cases h
    · intro s hs r hr
      cases hs
      simp only [List.mem_cons, List.not_mem_nil, or_false] at hr
      rcases hr with rfl | rfl
      · rfl
      · rfl)

end StableHLO

namespace StableHLO

/-- Claim C5: `verifyReducerShape` succeeds exactly when the reduction body
declares `2 × numInputs` formal parameters (accumulators first), one result
per input, and, for every input, the accumulator parameter matches the init
value's element type, is rank 0 or matches the operand rank with extents
drawn from the allowed-dimensions set, and the declared result type matches
the accumulator parameter type; every failure is a `ReducerIssue` value
carrying which parameter is wrong and why. -/
theorem reducer_shape_validation :
    (∀ (blockArgTypes blockResultTypes inputArgTypes initValueTypes : List TensorType)
       (numInputs : Nat) (allowedDimensions : List Extent),
      verifyReducerShape blockArgTypes blockResultTypes inputArgTypes initValueTypes
          numInputs allowedDimensions = Except.ok () ↔
        (blockArgTypes.length = 2 * numInputs ∧
         blockResultTypes.length = numInputs ∧
         ∀ i < numInputs,
           (blockArgTypes.getD i default).elem = (initValueTypes.getD i default).elem ∧
           ((blockArgTypes.getD i default).dims = [] ∨
             ((blockArgTypes.getD i default).dims.length =
                 (inputArgTypes.getD i default).dims.length ∧
               ∀ d ∈ (blockArgTypes.getD i default).dims, d ∈ allowedDimensions)) ∧
           blockResultTypes.getD i default = blockArgTypes.getD i default))
    ∧ (∀ (blockArgTypes blockResultTypes inputArgTypes initValueTypes : List TensorType)
       (numInputs : Nat) (allowedDimensions : List Extent),
      verifyReducerShape blockArgTypes blockResultTypes inputArgTypes initValueTypes
          numInputs allowedDimensions ≠ Except.ok () →
      ∃ e : ReducerIssue,
        verifyReducerShape blockArgTypes blockResultTypes inputArgTypes initValueTypes
          numInputs allowedDimensions = Except.error e) := by
  refine ⟨verifyReducerShape_ok_iff, ?_⟩
  intro a b c d n al h
  rcases hv : verifyReducerShape a b c d n al with e | u
  · exact ⟨e, rfl⟩
  · cases u
    exact absurd hv h

/-- Witness for C5: a well-formed unary reducer (rank-0 accumulator, matching
element types) is accepted. -/
theorem reducer_shape_validation_witness :
    verifyReducerShape [⟨[], 7⟩, ⟨[], 7⟩] [⟨[], 7⟩] [⟨[], 7⟩] [⟨[], 7⟩] 1 [] =
      Except.ok () :=
  (reducer_shape_validation.1 [⟨[], 7⟩, ⟨[], 7⟩] [⟨[], 7⟩] [⟨[], 7⟩] [⟨[], 7⟩] 1 []).mpr
    (by decide)

/-- Claim C6 (counterexample): with operand rank 3, collapsed slice
dimensions `{1}`, offset dimensions `{1}`, start-index map `{0,1,2}`,
index-vector dimension 1, slice sizes `[1,1,3]` and index-operand shape
`[5,3]` (hence result rank 2), the inferred shape is not the claimed
`[5,3]`. -/
theorem gather_concrete_counterexample :
    inferGatherShape (α := Int) 2
        (fun j => ([5, 3] : List Int).getD j.toNat 0)
        (fun j => ([1, 1, 3] : List Int).getD j.toNat 0)
        [1] [1] [0, 1, 2] 1 ≠ [5, 3] := by decide

/-- Claim C6 (amended): in the configuration above the inferred result shape
is `[5, 1]`: the batch dimension is read from index-operand position 0 (since
`0 < indexVectorDim`), and the offset dimension from the adjusted slice-size
sequence `[1, 3]` at index 0, which is 1. -/
theorem gather_concrete_amended :
    inferGatherShape (α := Int) 2
        (fun j => ([5, 3] : List Int).getD j.toNat 0)
        (fun j => ([1, 1, 3] : List Int).getD j.toNat 0)
        [1] [1] [0, 1, 2] 1 = [5, 1] := by decide

/-- Claim C7: every embedded inference/verification entry point is a pure
function of its arguments: two calls with equal argument tuples return equal
results. -/
theorem entry_points_deterministic :
    (∀ a b : Int × (Int → Int) × (Int → Int) × List Int × List Int × List Int × Int,
      a = b →
      inferGatherShape a.1 a.2.1 a.2.2.1 a.2.2.2.1 a.2.2.2.2.1 a.2.2.2.2.2.1 a.2.2.2.2.2.2 =
        inferGatherShape b.1 b.2.1 b.2.2.1 b.2.2.2.1 b.2.2.2.2.1 b.2.2.2.2.2.1 b.2.2.2.2.2.2)
    ∧ (∀ a b : List Extent × List WindowDimension, a = b →
      inferWindowOutputShape a.1 a.2 = inferWindowOutputShape b.1 b.2)
    ∧ (∀ a b : List Int × List Int × List (Int × Int) × List Int × List Int × List Bool,
      a = b →
      verifyWindowAttributesAndInferWindowDimensions a.1 a.2.1 a.2.2.1 a.2.2.2.1
          a.2.2.2.2.1 a.2.2.2.2.2 =
        verifyWindowAttributesAndInferWindowDimensions b.1 b.2.1 b.2.2.1 b.2.2.2.1
          b.2.2.2.2.1 b.2.2.2.2.2)
    ∧ (∀ a b : List (List Int) × Bool × Bool × Option Nat, a = b →
      verifyReplicaGroups a.1 a.2.1 a.2.2.1 a.2.2.2 =
        verifyReplicaGroups b.1 b.2.1 b.2.2.1 b.2.2.2)
    ∧ (∀ a b : List TensorType × List TensorType × List TensorType × List TensorType ×
        Nat × List Extent, a = b →
      verifyReducerShape a.1 a.2.1 a.2.2.1 a.2.2.2.1 a.2.2.2.2.1 a.2.2.2.2.2 =
        verifyReducerShape b.1 b.2.1 b.2.2.1 b.2.2.2.1 b.2.2.2.2.1 b.2.2.2.2.2) := by
  refine ⟨?_, ?_, ?_, ?_, ?_⟩ <;> (intro a b h; rw [h])

/-- Witness for C7: the gather clause at one concrete pair of equal argument
tuples. -/
theorem entry_points_deterministic_witness :
    inferGatherShape (α := Int) 2 (fun j => j) (fun j => j) [1] [1] [0, 1, 2] 1 =
      inferGatherShape (α := Int) 2 (fun j => j) (fun j => j) [1] [1] [0, 1, 2] 1 :=
  entry_points_deterministic.1
    (2, (fun j => j), (fun j => j), [1], [1], [0, 1, 2], 1)
    (2, (fun j => j), (fun j => j), [1], [1], [0, 1, 2], 1) rfl

/-- Claim C8: for a strictly increasing, in-range collapsed-dimension list,
the code's adjusted-slice-size lookup (materialized leading part plus offset
lookup) agrees at every in-range index with the naive sequence obtained by
deleting every collapsed dimension's entry from the slice-size vector. -/
theorem adjusted_slice_sizes_refinement {α : Type} [Inhabited α] (sliceSizes : List α)
    (collapsedSliceDims : List Int)
    (hsorted : List.Sorted (· < ·) collapsedSliceDims)
    (hrange : ∀ x ∈ collapsedSliceDims, 0 ≤ x ∧ x < (sliceSizes.length : Int))
    {i : Nat} (hi : i < (naiveAdjustedSliceSizes sliceSizes collapsedSliceDims).length) :
    getAdjustedSliceDim (fun j => sliceSizes.getD j.toNat default) collapsedSliceDims
        ((i : Nat) : Int) =
      (naiveAdjustedSliceSizes sliceSizes collapsedSliceDims).getD i default :=
  adjusted_eq_naive sliceSizes collapsedSliceDims hsorted.nodup hrange hi

/-- Witness for C8: slice sizes `[10,20,30]` with collapsed dimension 1 give
the adjusted sequence `[10,30]`; index 1 reads 30 through both lookups. -/
theorem adjusted_slice_sizes_refinement_witness :
    getAdjustedSliceDim (fun j => ([10, 20, 30] : List Int).getD j.toNat default) [1]
        ((1 : Nat) : Int) =
      (naiveAdjustedSliceSizes ([10, 20, 30] : List Int) [1]).getD 1 default :=
  adjusted_slice_sizes_refinement [10, 20, 30] [1] (by decide) (by decide) (i := 1)
    (by decide)

/-- Claim C9: with a non-negative index-vector dimension, `inferGatherShape`
never reads the start-indices extents at the index-vector dimension itself:
its output is unchanged when the accessor is modified at exactly that
argument.  Every batch-position query is strictly below it or, after the
single increment, strictly above it. -/
theorem start_indices_accessor_avoids_index_vector_dim {α : Type} [Inhabited α]
    (resultRank : Int) (f g getSliceDim : Int → α)
    (offsetDims collapsedSliceDims startIndexMap : List Int) (indexVectorDim : Int)
    (hivd : 0 ≤ indexVectorDim)
    (hfg : ∀ j : Int, j ≠ indexVectorDim → f j = g j) :
    inferGatherShape resultRank f getSliceDim offsetDims collapsedSliceDims
        startIndexMap indexVectorDim =
      inferGatherShape resultRank g getSliceDim offsetDims collapsedSliceDims
        startIndexMap indexVectorDim := by
  rw [inferGatherShape, inferGatherShape]
  apply List.map_congr_left
  intro a _
  dsimp only
  by_cases hc : offsetDims.contains a
  · rw [if_pos hc, if_pos hc]
  · rw [if_neg hc, if_neg hc]
    apply hfg
    have hnn : (0 : Int) ≤ (((gatherBatchDims resultRank offsetDims).indexOf a : Nat) : Int) :=
      Int.natCast_nonneg _
    by_cases hge : (((gatherBatchDims resultRank offsetDims).indexOf a : Nat) : Int) ≥ indexVectorDim
    · rw [if_pos hge]
      omega
    · rw [if_neg hge]
      omega

/-- Witness for C9: two start-indices accessors differing only at the
index-vector dimension 1 produce the same gather shape. -/
theorem start_indices_accessor_avoids_index_vector_dim_witness :
    inferGatherShape (α := Int) 2 (fun j => if j = 1 then 99 else j)
        (fun j => j) [1] [1] [0, 1, 2] 1 =
      inferGatherShape (α := Int) 2 (fun j => if j = 1 then 100 else j)
        (fun j => j) [1] [1] [0, 1, 2] 1 :=
  start_indices_accessor_avoids_index_vector_dim 2 (fun j => if j = 1 then 99 else j)
    (fun j => if j = 1 then 100 else j) (fun j => j) [1] [1] [0, 1, 2] 1 (by decide)
    (fun j hj => by simp [hj])

/-- Claim C10: a default-constructed `WindowDimension` has stride 1, zero
padding, unit dilations, no reversal, and size 0; that default size violates
the validated bound `size ≥ 1`, so the default value is not a valid window
until its size is set (setting it to 1 suffices). -/
theorem window_dimension_defaults :
    ({} : WindowDimension).size = 0 ∧ ({} : WindowDimension).stride = 1 ∧
    ({} : WindowDimension).paddingLow = 0 ∧ ({} : WindowDimension).paddingHigh = 0 ∧
    ({} : WindowDimension).windowDilation = 1 ∧ ({} : WindowDimension).baseDilation = 1 ∧
    ({} : WindowDimension).windowReversal = false ∧
    ¬ validWindowDimension {} ∧
    validWindowDimension { ({} : WindowDimension) with size := 1 } := by
  refine ⟨rfl, rfl, rfl, rfl, rfl, rfl, rfl, ?_, ?_⟩
  · intro h
    rcases h with ⟨h1, -⟩
    simp at h1
  · exact ⟨le_refl 1, le_refl 1, le_refl 1, le_refl 1⟩

end StableHLO
